import Mathlib

/-!
Verification of the falcon front end: the ELF loader/linker
(src/lib/loader/elf.rs) and the IL basic-block model (src/lib/il/block.rs).

The Rust source is shallowly embedded: machine integers (u64) are modelled
as Nat with explicit reduction mod 2^64 where the source performs u64
addition on untrusted data; checked slice accesses become Option; fallible
Rust functions returning Result become an outcome type that also
distinguishes panics (unchecked slice indexing, unwrap on None, integer
underflow, explicit panic) from recoverable errors.

The goblin crate is an external dependency of the repository; the result of
a successful goblin parse is modelled as the structure ParsedElf holding
exactly the fields the source reads (header, program headers, section
headers, dynamic entries, symbol tables, string-table bytes), together with
the raw file bytes.  goblin string-table lookup (Strtab::get) is modelled as
C-string extraction at an offset.
-/

set_option maxRecDepth 4000

namespace Falcon

/-- u64 addition as performed by the source on addresses (wrapping). -/
def u64add (a b : Nat) : Nat := (a + b) % (2 ^ 64)

/-- Outcome of a Rust call: Ok, a recoverable Err, or an abort of the
process (slice-index panic, unwrap on None, integer underflow, panic!). -/
inductive ROut (α : Type) where
  | ok : α → ROut α
  | err : String → ROut α
  | panicked : String → ROut α
deriving Repr, DecidableEq

/-- Models goblin Strtab lookup: the C string stored at byte offset off. -/
def strtabGet (tab : List Nat) (off : Nat) : String :=
  String.mk (((tab.drop off).takeWhile (fun b => b ≠ 0)).map (fun b => Char.ofNat b))

/-- Lower-case hexadecimal digit, as produced by Rust formatting. -/
def hexDigitChar (n : Nat) : Char :=
  if n < 10 then Char.ofNat (48 + n) else Char.ofNat (87 + n)

/-- Hexadecimal digits, most significant first (empty for 0); the first
argument is structural fuel, always at least the number of digits when
called through hexDigits. -/
def hexDigitsAux : Nat → Nat → List Char
  | 0, _ => []
  | _ + 1, 0 => []
  | fuel + 1, n => hexDigitsAux fuel (n / 16) ++ [hexDigitChar (n % 16)]

/-- Hexadecimal digits of n, most significant first (empty for 0). -/
def hexDigits (n : Nat) : List Char :=
  hexDigitsAux n n

/-- Models Rust formatting with a lower-case hex specifier. -/
def hexString (n : Nat) : String :=
  if n = 0 then "0" else String.mk (hexDigits n)

/-- Models Rust slice access bytes.get(start..start+len): some slice when the
range is in bounds, none otherwise. -/
def listGetRange (bytes : List Nat) (start len : Nat) : Option (List Nat) :=
  if start + len ≤ bytes.length then some ((bytes.drop start).take len) else none

/-! ## ELF data model (goblin parse result) -/

/-- ELF program header fields read by the source. -/
structure ProgramHeader where
  p_type : Nat
  p_offset : Nat
  p_vaddr : Nat
  p_filesz : Nat
  p_memsz : Nat
  p_flags : Nat
deriving Repr, DecidableEq

def PT_LOAD : Nat := 1

/-- ELF section header fields read by the source. -/
structure SectionHeader where
  sh_addr : Nat
  sh_offset : Nat
  sh_size : Nat
deriving Repr, DecidableEq

/-- A dynamic-section entry. -/
structure Dyn where
  d_tag : Nat
  d_val : Nat
deriving Repr, DecidableEq

def DT_NEEDED : Nat := 1
def DT_STRTAB : Nat := 5

/-- A symbol-table entry; is_function models goblin sym.is_function(). -/
structure Sym where
  st_name : Nat
  st_value : Nat
  st_shndx : Nat
  is_function : Bool
deriving Repr, DecidableEq

/-- ELF file header fields read by the source. -/
structure ElfHeader where
  e_entry : Nat
  e_machine : Nat
deriving Repr, DecidableEq

/-- The result of a successful goblin parse of an ELF byte buffer, together
with the raw bytes of the file. -/
structure ParsedElf where
  header : ElfHeader
  program_headers : List ProgramHeader
  section_headers : List SectionHeader
  dynamic : Option (List Dyn)
  dynsyms : List Sym
  syms : List Sym
  dynstrtab : List Nat
  strtab : List Nat
  bytes : List Nat
deriving Repr, DecidableEq

/-- The Elf struct of the source: a base address, the file bytes (held
inside the parse result here) and the user-declared function addresses. -/
structure Elf where
  base_address : Nat
  file : ParsedElf
  user_function_entries : List Nat
deriving Repr, DecidableEq

/-- Models line 291: Elf::elf() parses with goblin and unwraps; a buffer
whose full ELF structure cannot be parsed makes the accessor abort. -/
def elfParseUnwrap (parsed : Option ParsedElf) : ROut ParsedElf :=
  match parsed with
  | some p => ROut.ok p
  | none => ROut.panicked "called unwrap on a None value: goblin parse failed"

/-- The raw Elf value produced by Elf::new before any accessor runs. -/
structure RawElf where
  base_address : Nat
  bytes : List Nat
  user_function_entries : List Nat
deriving Repr, DecidableEq

/-- Models the goblin magic peek: the first four bytes are the ELF magic. -/
def isElfMagic (bytes : List Nat) : Bool :=
  decide (bytes.take 4 = [0x7f, 0x45, 0x4c, 0x46])

/-- Elf::new: slices bytes 0..16 without a bounds check (an abort when the
buffer is shorter than 16 bytes), then peeks the magic. -/
def elfNew (bytes : List Nat) (base_address : Nat) : ROut RawElf :=
  if bytes.length < 16 then
    ROut.panicked "slice index out of range: bytes 0..16"
  else if isElfMagic bytes then
    ROut.ok { base_address := base_address, bytes := bytes, user_function_entries := [] }
  else
    ROut.err "Not a valid elf"

/-! ## Memory -/

/-- Permission flags of a memory segment. -/
structure Permissions where
  read : Bool
  write : Bool
  execute : Bool
deriving Repr, DecidableEq

/-- Maps ELF program-header flags: PF_X is bit 0, PF_W bit 1, PF_R bit 2. -/
def permsOf (p_flags : Nat) : Permissions :=
  { read := p_flags.testBit 2, write := p_flags.testBit 1, execute := p_flags.testBit 0 }

/-- A memory segment: base address, bytes, permissions. -/
structure MemorySegment where
  address : Nat
  bytes : List Nat
  permissions : Permissions
deriving Repr, DecidableEq

/-- Modelled from the spec: the Memory type of loader::memory is not under
src/; per the spec it is an ordered collection of MemorySegments and
add_segment appends a segment to the internal collection with no
constraint checking. -/
structure Memory where
  segments : List MemorySegment
deriving Repr, DecidableEq

/-- Modelled from the spec: Memory::new creates an empty collection. -/
def Memory.new : Memory := { segments := [] }

/-- Modelled from the spec: add_segment appends, with no overlap checks. -/
def Memory.add_segment (m : Memory) (s : MemorySegment) : Memory :=
  { segments := m.segments ++ [s] }

/-- The byte slice for one PT_LOAD header: the file range
offset..offset+filesz, zero-extended to memsz.  The range check models
Rust slice get (err when out of bounds); the extension models the u64
subtraction memsz - filesz, which underflows when memsz < filesz. -/
def segmentBytesFor (bytes : List Nat) (ph : ProgramHeader) : ROut (List Nat) :=
  if ph.p_offset + ph.p_filesz ≤ bytes.length then
    if ((bytes.drop ph.p_offset).take ph.p_filesz).length = ph.p_memsz then
      ROut.ok ((bytes.drop ph.p_offset).take ph.p_filesz)
    else if ph.p_memsz < ph.p_filesz then
      ROut.panicked "attempt to subtract with overflow"
    else
      ROut.ok ((bytes.drop ph.p_offset).take ph.p_filesz ++
        List.replicate (ph.p_memsz - ph.p_filesz) 0)
  else ROut.err "Malformed Elf"

/-- The loop body of Elf::memory over the program headers. -/
def elfMemoryGo (bytes : List Nat) (base : Nat) :
    List ProgramHeader → Memory → ROut Memory
  | [], m => ROut.ok m
  | ph :: rest, m =>
    if ph.p_type = PT_LOAD then
      match segmentBytesFor bytes ph with
      | ROut.err s => ROut.err s
      | ROut.panicked s => ROut.panicked s
      | ROut.ok bs =>
        elfMemoryGo bytes base rest
          (m.add_segment { address := u64add ph.p_vaddr base, bytes := bs,
                           permissions := permsOf ph.p_flags })
    else elfMemoryGo bytes base rest m

/-- Elf::memory: one segment per PT_LOAD program header, placed at
vaddr + base_address. -/
def Elf.memory (e : Elf) : ROut Memory :=
  elfMemoryGo e.file.bytes e.base_address e.file.program_headers Memory.new

/-! ## Function entries -/

/-- A discovered function entry: relocated address and optional name. -/
structure FunctionEntry where
  address : Nat
  name : Option String
deriving Repr, DecidableEq

/-- The eligibility test of the symbol loops in Elf::function_entries:
sym.is_function() and sym.st_value != 0. -/
def symElig (s : Sym) : Bool :=
  s.is_function && (s.st_value != 0)

/-- The symbol loops of Elf::function_entries: for every function-typed
symbol with nonzero value, push an entry at st_value + base_address named
from the string table, and record the unrelocated st_value in the
functions_added set (modelled as a list used only through membership). -/
def feSymPass (tab : List Nat) (base : Nat) :
    List Sym → List FunctionEntry × List Nat → List FunctionEntry × List Nat
  | [], acc => acc
  | sym :: rest, (fes, added) =>
    if symElig sym then
      feSymPass tab base rest
        (fes ++ [{ address := u64add sym.st_value base,
                   name := some (strtabGet tab sym.st_name) }],
         sym.st_value :: added)
    else feSymPass tab base rest (fes, added)

/-- The user-function loop of Elf::function_entries: a user address is
skipped when the functions_added set contains the RELOCATED address
user_function_entry + base_address (the source adds base_address in this
lookup, unlike the entry-point lookup). -/
def feUserPass (base : Nat) (added : List Nat) :
    List Nat → List FunctionEntry → List FunctionEntry
  | [], fes => fes
  | u :: rest, fes =>
    if added.contains (u64add u base) then feUserPass base added rest fes
    else
      feUserPass base added rest
        (fes ++ [{ address := u64add u base,
                   name := some ("user_function_" ++ hexString u) }])

/-- Elf::function_entries: dynamic symbols, then regular symbols, then the
entry point when its unrelocated address is not covered, then user-declared
addresses. -/
def Elf.function_entries (e : Elf) : List FunctionEntry :=
  let g := e.file
  let acc1 := feSymPass g.dynstrtab e.base_address g.dynsyms ([], [])
  let acc2 := feSymPass g.strtab e.base_address g.syms acc1
  let fes :=
    if acc2.2.contains g.header.e_entry then acc2.1
    else acc2.1 ++ [{ address := u64add g.header.e_entry e.base_address, name := none }]
  feUserPass e.base_address acc2.2 e.user_function_entries fes

/-- Elf::program_entry: the file header entry point, with no base address
added. -/
def Elf.program_entry (e : Elf) : Nat :=
  e.file.header.e_entry

/-- Architecture tags recognized by the loader. -/
inductive Architecture where
  | X86 : Architecture
deriving Repr, DecidableEq

def EM_386 : Nat := 3

/-- Elf::architecture: only EM_386 is recognized. -/
def Elf.architecture (e : Elf) : ROut Architecture :=
  if e.file.header.e_machine = EM_386 then ROut.ok Architecture.X86
  else ROut.err "Unsupported Arcthiecture"

/-! ## dt_needed -/

/-- First dynamic entry tagged DT_STRTAB (the source breaks at the first). -/
def findStrtabAddress : List Dyn → Option Nat
  | [] => none
  | d :: rest => if d.d_tag = DT_STRTAB then some d.d_val else findStrtabAddress rest

/-- The section-header loop of dt_needed: every section whose address range
contains the strtab address replaces the candidate (no break in the
source, so the last match wins); the byte slice for a match is taken with
unwrap, an abort when out of range. -/
def findStrtabLoop (bytes : List Nat) (addr : Nat) :
    List SectionHeader → Option (List Nat) → ROut (Option (List Nat))
  | [], acc => ROut.ok acc
  | sh :: rest, acc =>
    if sh.sh_addr ≤ addr ∧ addr < sh.sh_addr + sh.sh_size then
      let start := sh.sh_offset + (addr - sh.sh_addr)
      let size := sh.sh_size - (start - sh.sh_offset)
      match listGetRange bytes start size with
      | none => ROut.panicked "called unwrap on a None value: strtab byte range"
      | some tb => findStrtabLoop bytes addr rest (some tb)
    else findStrtabLoop bytes addr rest acc

/-- Elf::dt_needed: evaluates self.memory() first (its failure propagates),
returns an empty list without a dynamic section or a DT_STRTAB tag,
aborts the process when a strtab address has no covering section header,
and otherwise resolves every DT_NEEDED value through the strtab. -/
def Elf.dt_needed (e : Elf) : ROut (List String) :=
  match e.memory with
  | ROut.err s => ROut.err s
  | ROut.panicked s => ROut.panicked s
  | ROut.ok _ =>
    match e.file.dynamic with
    | none => ROut.ok []
    | some dyns =>
      match findStrtabAddress dyns with
      | none => ROut.ok []
      | some strtab_address =>
        match findStrtabLoop e.file.bytes strtab_address e.file.section_headers none with
        | ROut.err s => ROut.err s
        | ROut.panicked s => ROut.panicked s
        | ROut.ok none => ROut.panicked "Failed to get Dynamic strtab"
        | ROut.ok (some tab) =>
          ROut.ok ((dyns.filter (fun d => d.d_tag = DT_NEEDED)).map
            (fun d => strtabGet tab d.d_val))

/-! ## ElfLinker

The file system is modelled as an association list from paths to parsed
ELF files (a path present in the list is a file that exists and whose
goblin parse succeeds; Elf::new's own magic/length check is still run on
its bytes).  A path is a directory component list plus a base file name;
Path::file_name is the base name, and joining a directory with a relative
path concatenates the components. -/

/-- The address where the first library will be loaded. -/
def DEFAULT_LIB_BASE : Nat := 0x80000000

/-- The step in address between where we will load libraries. -/
def LIB_BASE_STEP : Nat := 0x04000000

/-- A file path: directory components and a base file name. -/
structure FPath where
  dir : List String
  base : String
deriving Repr, DecidableEq

/-- The modelled file system. -/
def FileSystem : Type := List (FPath × ParsedElf)

/-- File lookup: the first entry with the given path. -/
def fsGet : FileSystem → FPath → Option ParsedElf
  | [], _ => none
  | (q, pf) :: rest, p => if q = p then some pf else fsGet rest p

/-- Linker outcome: ok, recoverable error, abort, or exhaustion of the
recursion fuel (a modelling artifact: the source recursion has no such
bound, and a result other than outOfFuel is the source's behavior). -/
inductive LOut (α : Type) where
  | ok : α → LOut α
  | err : String → LOut α
  | panicked : String → LOut α
  | outOfFuel : LOut α
deriving Repr, DecidableEq

/-- Association-list lookup for the loaded-library map. -/
def lookupAL {α : Type} : List (String × α) → String → Option α
  | [], _ => none
  | (k1, v1) :: rest, k => if k1 = k then some v1 else lookupAL rest k

/-- Association-list insert with overwrite, modelling BTreeMap::insert
(iteration order of the model differs from the BTreeMap's sorted order;
no claim depends on iteration order). -/
def insertAL {α : Type} : List (String × α) → String → α → List (String × α)
  | [], k, v => [(k, v)]
  | (k1, v1) :: rest, k, v =>
    if k1 = k then (k, v) :: rest else (k1, v1) :: insertAL rest k v

/-- The ElfLinker state.  load_events is a verification ghost recording the
base name of every Elf actually constructed by load_elf, in order; it is
not a field of the source struct and no source behavior reads it. -/
structure ElfLinker where
  filename : FPath
  loaded : List (String × Elf)
  memory : Memory
  next_lib_address : Nat
  load_events : List String
deriving Repr, DecidableEq

/-- ElfLinker::load_elf path resolution: prefer the same-named file in the
directory of the originally given root file when it exists there. -/
def resolvePath (root : FPath) (p : FPath) (fs : FileSystem) : FPath :=
  let base_path : FPath := { dir := root.dir ++ p.dir, base := p.base }
  if (fsGet fs base_path).isSome then base_path else p

/-- The for-loop merging an Elf's segments into the linker memory. -/
def mergeMemory (m : Memory) (new : Memory) : Memory :=
  new.segments.foldl Memory.add_segment m

/-- The DT_NEEDED loop of load_elf, over an abstract recursive-load step:
names already present in the loaded map are skipped, which is what
terminates mutual dependency cycles; otherwise the next library base
address is bumped by LIB_BASE_STEP and the step is invoked there. -/
def loadDepsF (step : ElfLinker → FPath → Nat → LOut ElfLinker) :
    ElfLinker → List String → LOut ElfLinker
  | st, [] => LOut.ok st
  | st, so_name :: rest =>
    if (lookupAL st.loaded so_name).isSome then loadDepsF step st rest
    else
      match step
          { st with next_lib_address := u64add st.next_lib_address LIB_BASE_STEP }
          { dir := [], base := so_name }
          (u64add st.next_lib_address LIB_BASE_STEP) with
      | LOut.ok st1 => loadDepsF step st1 rest
      | e => e

/-- ElfLinker::load_elf: resolve the path, read and check the file
(Elf::new), merge its memory, register it under its base file name, then
load every DT_NEEDED name not already present.  The source recursion is
unbounded; here it is bounded by structural fuel, one unit per nested
load_elf call, and exhaustion is the distinct outcome outOfFuel. -/
def loadElf (fs : FileSystem) : Nat → ElfLinker → FPath → Nat → LOut ElfLinker
  | 0, _, _, _ => LOut.outOfFuel
  | fuel + 1, st, path, base_address =>
    let path1 := resolvePath st.filename path fs
    match fsGet fs path1 with
    | none => LOut.err ("Error opening " ++ path1.base)
    | some pf =>
      match elfNew pf.bytes base_address with
      | ROut.err s => LOut.err s
      | ROut.panicked s => LOut.panicked s
      | ROut.ok _ =>
        let elf : Elf := { base_address := base_address, file := pf,
                           user_function_entries := [] }
        match elf.memory with
        | ROut.err s => LOut.err s
        | ROut.panicked s => LOut.panicked s
        | ROut.ok mem =>
          let st1 : ElfLinker :=
            { st with memory := mergeMemory st.memory mem,
                      loaded := insertAL st.loaded path1.base elf,
                      load_events := st.load_events ++ [path1.base] }
          match elf.dt_needed with
          | ROut.err s => LOut.err s
          | ROut.panicked s => LOut.panicked s
          | ROut.ok needed => loadDepsF (loadElf fs fuel) st1 needed

/-- ElfLinker::new: empty state with next_lib_address = DEFAULT_LIB_BASE,
then load_elf(filename, 0). -/
def linkerNew (fs : FileSystem) (fuel : Nat) (filename : FPath) : LOut ElfLinker :=
  loadElf fs fuel
    { filename := filename, loaded := [], memory := Memory.new,
      next_lib_address := DEFAULT_LIB_BASE, load_events := [] }
    filename 0

/-- ElfLinker::program_entry: indexes the loaded map by the root's base
file name; a BTreeMap Index on a missing key is an abort. -/
def ElfLinker.program_entry (l : ElfLinker) : ROut Nat :=
  match lookupAL l.loaded l.filename.base with
  | none => ROut.panicked "no entry found for key"
  | some e => ROut.ok e.program_entry

/-- ElfLinker::architecture: same lookup, then Elf::architecture. -/
def ElfLinker.architecture (l : ElfLinker) : ROut Architecture :=
  match lookupAL l.loaded l.filename.base with
  | none => ROut.panicked "no entry found for key"
  | some e => e.architecture

/-! ## IL basic blocks

Expression, Scalar, Array and MultiVar are opaque value types to this
core; they are modelled by a single type parameter V carried through the
operation variants. -/

/-- An IL operation (src/lib/il: Assign, Store, Load, Brc, Phi, Raise),
with opaque leaf values. -/
inductive Operation (V : Type) where
  | assign : V → V → Operation V
  | store : V → V → V → Operation V
  | load : V → V → V → Operation V
  | brc : V → V → Operation V
  | phi : V → List V → Operation V
  | raise : V → Operation V
deriving Repr, DecidableEq

/-- Modelled from the spec: Instruction (src/lib/il/instruction.rs, not
under src/) is opaque to this core beyond its block-local index and its
operation; clone_new_index re-assigns the index and keeps the operation. -/
structure Instruction (V : Type) where
  index : Nat
  operation : Operation V
deriving Repr, DecidableEq

/-- Modelled from the spec: Instruction::clone_new_index copies the
instruction with a new block-local index. -/
def Instruction.clone_new_index {V : Type} (i : Instruction V) (index : Nat) :
    Instruction V :=
  { i with index := index }

/-- A basic block: block index, both monotonic counters, instruction
sequence.  Counters are u64 in the source; they are modelled as unbounded
naturals (no claim depends on counter wraparound at 2^64). -/
structure Block (V : Type) where
  index : Nat
  next_instruction_index : Nat
  next_temp_index : Nat
  instructions : List (Instruction V)
deriving Repr, DecidableEq

namespace Block

variable {V : Type}

/-- Block::new. -/
def new (index : Nat) : Block V :=
  { index := index, next_instruction_index := 0, next_temp_index := 0,
    instructions := [] }

/-- Block::new_instruction_index: returns the current counter value and the
block with the counter bumped (the &mut self is made explicit). -/
def new_instruction_index (b : Block V) : Nat × Block V :=
  (b.next_instruction_index,
   { b with next_instruction_index := b.next_instruction_index + 1 })

/-- Block::push. -/
def push (b : Block V) (ins : Instruction V) : Block V :=
  { b with instructions := b.instructions ++ [ins] }

/-- Block::append: copies every instruction of other into self, giving
each a fresh index from self's own counter. -/
def append (b other : Block V) : Block V :=
  other.instructions.foldl
    (fun acc ins =>
      let p := acc.new_instruction_index
      p.2.push (ins.clone_new_index p.1))
    b

/-- Block::assign. -/
def assign (b : Block V) (dst src : V) : Block V :=
  let p := b.new_instruction_index
  p.2.push { index := p.1, operation := Operation.assign dst src }

/-- Block::store. -/
def store (b : Block V) (dst address src : V) : Block V :=
  let p := b.new_instruction_index
  p.2.push { index := p.1, operation := Operation.store dst address src }

/-- Block::load. -/
def load (b : Block V) (dst address src : V) : Block V :=
  let p := b.new_instruction_index
  p.2.push { index := p.1, operation := Operation.load dst address src }

/-- Block::brc. -/
def brc (b : Block V) (dst condition : V) : Block V :=
  let p := b.new_instruction_index
  p.2.push { index := p.1, operation := Operation.brc dst condition }

/-- Block::phi. -/
def phi (b : Block V) (dst : V) (src : List V) : Block V :=
  let p := b.new_instruction_index
  p.2.push { index := p.1, operation := Operation.phi dst src }

/-- Block::raise. -/
def raise (b : Block V) (expr : V) : Block V :=
  let p := b.new_instruction_index
  p.2.push { index := p.1, operation := Operation.raise expr }

/-- Block::prepend_phi: consumes a fresh index but inserts at the head. -/
def prepend_phi (b : Block V) (dst : V) (src : List V) : Block V :=
  let p := b.new_instruction_index
  { p.2 with instructions := { index := p.1, operation := Operation.phi dst src }
                               :: p.2.instructions }

/-- The position scan of remove_instruction: the first list position whose
element satisfies p (the source loop breaks at the first match). -/
def firstIdxWhere {α : Type} (p : α → Bool) : List α → Option Nat
  | [] => none
  | x :: rest => if p x then some 0 else (firstIdxWhere p rest).map (· + 1)

/-- Block::instruction: linear scan for the first instruction carrying the
given block-local index. -/
def instruction (b : Block V) (index : Nat) : Option (Instruction V) :=
  b.instructions.find? (fun ins => ins.index = index)

/-- Block::remove_instruction: the result of the &mut self call is the
returned Result paired with the block afterwards; the first instruction
carrying the index is removed, and a miss is a NotFound-style error
leaving the block untouched. -/
def remove_instruction (b : Block V) (index : Nat) :
    Except String Unit × Block V :=
  match firstIdxWhere (fun ins => ins.index = index) b.instructions with
  | some i =>
    (Except.ok (), { b with instructions := b.instructions.eraseIdx i })
  | none =>
    (Except.error ("No instruction with index " ++ toString index ++ " found"), b)

/-- Block::clone_new_index: clone the whole block, then set the index. -/
def clone_new_index (b : Block V) (index : Nat) : Block V :=
  { b with index := index }

end Block

/-! ## Closed form of Elf::function_entries -/

/-- The entry pushed by a symbol loop for one eligible symbol. -/
def symEntry (tab : List Nat) (base : Nat) (s : Sym) : FunctionEntry :=
  { address := u64add s.st_value base, name := some (strtabGet tab s.st_name) }

/-- The unrelocated st_values recorded in functions_added: those of the
eligible dynamic symbols followed by those of the eligible regular
symbols. -/
def eligibleValues (f : ParsedElf) : List Nat :=
  (f.dynsyms.filter symElig).map Sym.st_value ++
    (f.syms.filter symElig).map Sym.st_value

/-- The entry pushed for one user-declared address. -/
def userEntry (base u : Nat) : FunctionEntry :=
  { address := u64add u base, name := some ("user_function_" ++ hexString u) }

lemma feSymPass_eq (tab : List Nat) (base : Nat) :
    ∀ (l : List Sym) (fes : List FunctionEntry) (added : List Nat),
    feSymPass tab base l (fes, added) =
      (fes ++ (l.filter symElig).map (symEntry tab base),
       ((l.filter symElig).map Sym.st_value).reverse ++ added) := by
  intro l
  induction l with
  | nil => intro fes added; simp [feSymPass]
  | cons s rest ih =>
    intro fes added
    cases h : symElig s with
    | true =>
      rw [feSymPass, if_pos h, ih, List.filter_cons_of_pos h]
      simp [symEntry, List.append_assoc]
    | false =>
      rw [feSymPass, if_neg (by simp [h]), ih,
        List.filter_cons_of_neg (by simp [h])]

lemma feUserPass_eq (base : Nat) (added : List Nat) :
    ∀ (l : List Nat) (fes : List FunctionEntry),
    feUserPass base added l fes =
      fes ++ (l.filter (fun u => !added.contains (u64add u base))).map
        (userEntry base) := by
  intro l
  induction l with
  | nil => intro fes; simp [feUserPass]
  | cons u rest ih =>
    intro fes
    cases h : added.contains (u64add u base) with
    | true =>
      rw [feUserPass, if_pos h, ih, List.filter_cons_of_neg (by rw [h]; decide)]
    | false =>
      rw [feUserPass, if_neg (by rw [h]; decide), ih,
        List.filter_cons_of_pos (by rw [h]; decide)]
      simp [userEntry, List.append_assoc]

lemma contains_eq_of_mem_iff {x : Nat} {l1 l2 : List Nat}
    (h : ∀ y : Nat, y ∈ l1 ↔ y ∈ l2) : l1.contains x = l2.contains x := by
  by_cases hx : x ∈ l1
  · have e1 : l1.contains x = true := List.elem_iff.mpr hx
    have e2 : l2.contains x = true := List.elem_iff.mpr ((h x).mp hx)
    rw [e1, e2]
  · have e1 : l1.contains x = false := by
      cases hc : l1.contains x
      · rfl
      · exact absurd (List.elem_iff.mp hc) hx
    have e2 : l2.contains x = false := by
      cases hc : l2.contains x
      · rfl
      · exact absurd ((h x).mpr (List.elem_iff.mp hc)) hx
    rw [e1, e2]

lemma added_contains_eq (f : ParsedElf) (x : Nat) :
    ((((f.syms.filter symElig).map Sym.st_value).reverse ++
        ((((f.dynsyms.filter symElig).map Sym.st_value).reverse) ++ [])).contains x)
      = (eligibleValues f).contains x := by
  apply contains_eq_of_mem_iff
  intro y
  simp only [List.mem_append, List.mem_reverse, List.append_nil, eligibleValues]
  tauto

lemma user_filter_eq (f : ParsedElf) (base : Nat) (user : List Nat) :
    user.filter
      (fun u => !((((f.syms.filter symElig).map Sym.st_value).reverse ++
          ((((f.dynsyms.filter symElig).map Sym.st_value).reverse) ++ [])).contains
            (u64add u base)))
      = user.filter (fun u => !(eligibleValues f).contains (u64add u base)) :=
  List.filter_congr (fun u _ => by rw [added_contains_eq])

/-- The loop-free form of Elf::function_entries: eligible dynamic symbols,
eligible regular symbols, the entry point when its UNRELOCATED address is
not among the eligible symbol values, then every user address whose
RELOCATED address is not among those (unrelocated) values. -/
lemma function_entries_closed (e : Elf) :
    e.function_entries =
      (e.file.dynsyms.filter symElig).map (symEntry e.file.dynstrtab e.base_address) ++
      (e.file.syms.filter symElig).map (symEntry e.file.strtab e.base_address) ++
      (if (eligibleValues e.file).contains e.file.header.e_entry then []
       else [{ address := u64add e.file.header.e_entry e.base_address, name := none }]) ++
      (e.user_function_entries.filter
         (fun u => !(eligibleValues e.file).contains (u64add u e.base_address))).map
        (userEntry e.base_address) := by
  show feUserPass _ _ _ _ = _
  rw [feSymPass_eq, feSymPass_eq, feUserPass_eq, user_filter_eq, added_contains_eq]
  by_cases h : (eligibleValues e.file).contains e.file.header.e_entry = true
  · rw [if_pos h, if_pos h]
    simp [List.append_assoc]
  · rw [if_neg h, if_neg h]
    simp [List.append_assoc]

/-! ## Closed form of Elf::memory -/

/-- The segment Elf::memory builds for one PT_LOAD header when the file
range is in bounds and memsz is at least filesz. -/
def loadSegment (bytes : List Nat) (base : Nat) (ph : ProgramHeader) : MemorySegment :=
  { address := u64add ph.p_vaddr base,
    bytes := (bytes.drop ph.p_offset).take ph.p_filesz ++
      List.replicate (ph.p_memsz - ph.p_filesz) 0,
    permissions := permsOf ph.p_flags }

/-- Validity of one program header of an ELF input with respect to the
file buffer: a loadable header's file range is in bounds and its memory
size is at least its file size. -/
def phValid (bytes : List Nat) (ph : ProgramHeader) : Prop :=
  ph.p_type = PT_LOAD →
    ph.p_offset + ph.p_filesz ≤ bytes.length ∧ ph.p_filesz ≤ ph.p_memsz

instance (bytes : List Nat) (ph : ProgramHeader) : Decidable (phValid bytes ph) := by
  unfold phValid; infer_instance

lemma segmentBytesFor_valid (bytes : List Nat) (ph : ProgramHeader)
    (h1 : ph.p_offset + ph.p_filesz ≤ bytes.length)
    (h2 : ph.p_filesz ≤ ph.p_memsz) :
    segmentBytesFor bytes ph =
      ROut.ok ((bytes.drop ph.p_offset).take ph.p_filesz ++
        List.replicate (ph.p_memsz - ph.p_filesz) 0) := by
  have hlen : ((bytes.drop ph.p_offset).take ph.p_filesz).length = ph.p_filesz := by
    rw [List.length_take, List.length_drop]
    exact Nat.min_eq_left (Nat.le_sub_of_add_le (by omega))
  unfold segmentBytesFor
  rw [if_pos h1]
  by_cases hfm : ph.p_filesz = ph.p_memsz
  · rw [if_pos (by rw [hlen, hfm])]
    rw [hfm, Nat.sub_self, List.replicate_zero, List.append_nil]
  · rw [if_neg (by rw [hlen]; exact hfm), if_neg (Nat.not_lt.mpr h2)]

lemma elfMemoryGo_eq (bytes : List Nat) (base : Nat) :
    ∀ (phs : List ProgramHeader) (m : Memory),
    (∀ ph ∈ phs, phValid bytes ph) →
    elfMemoryGo bytes base phs m =
      ROut.ok ⟨m.segments ++
        (phs.filter (fun ph => decide (ph.p_type = PT_LOAD))).map
          (loadSegment bytes base)⟩ := by
  intro phs
  induction phs with
  | nil => intro m _; simp [elfMemoryGo]
  | cons ph rest ih =>
    intro m hv
    by_cases h : ph.p_type = PT_LOAD
    · obtain ⟨h1, h2⟩ := hv ph (by simp) h
      rw [elfMemoryGo, if_pos h, segmentBytesFor_valid bytes ph h1 h2]
      show elfMemoryGo bytes base rest
          (m.add_segment { address := u64add ph.p_vaddr base,
                           bytes := (bytes.drop ph.p_offset).take ph.p_filesz ++
                             List.replicate (ph.p_memsz - ph.p_filesz) 0,
                           permissions := permsOf ph.p_flags }) = _
      rw [ih _ (fun q hq => hv q (by simp [hq])),
        List.filter_cons_of_pos (by simp [h])]
      simp [Memory.add_segment, loadSegment, List.append_assoc]
    · rw [elfMemoryGo, if_neg h, ih _ (fun q hq => hv q (by simp [hq])),
        List.filter_cons_of_neg (by simp [h])]

/-! ## Claim theorems: Elf accessors -/

/-- C2: for every valid ELF input (every loadable program header has its
file range inside the buffer and memsz at least filesz), memory() returns
exactly one segment per PT_LOAD program header, in order; each segment
sits at vaddr + base_address, its length is max(filesz, memsz), and every
byte at or beyond filesz is zero. -/
theorem claim_C2_memory_segments (e : Elf)
    (hv : ∀ ph ∈ e.file.program_headers, phValid e.file.bytes ph) :
    Elf.memory e = ROut.ok ⟨(e.file.program_headers.filter
        (fun ph => decide (ph.p_type = PT_LOAD))).map
        (loadSegment e.file.bytes e.base_address)⟩ ∧
    (∀ m : Memory, Elf.memory e = ROut.ok m →
      m.segments.length = (e.file.program_headers.filter
        (fun ph => decide (ph.p_type = PT_LOAD))).length) ∧
    (∀ ph ∈ e.file.program_headers, ph.p_type = PT_LOAD →
      (loadSegment e.file.bytes e.base_address ph).address
          = u64add ph.p_vaddr e.base_address ∧
      (loadSegment e.file.bytes e.base_address ph).bytes.length
          = max ph.p_filesz ph.p_memsz ∧
      ∀ i : Nat, ph.p_filesz ≤ i → i < max ph.p_filesz ph.p_memsz →
        (loadSegment e.file.bytes e.base_address ph).bytes[i]? = some 0) := by
  have hmain : Elf.memory e = ROut.ok ⟨(e.file.program_headers.filter
      (fun ph => decide (ph.p_type = PT_LOAD))).map
      (loadSegment e.file.bytes e.base_address)⟩ := by
    unfold Elf.memory
    rw [elfMemoryGo_eq e.file.bytes e.base_address e.file.program_headers Memory.new hv]
    rfl
  refine ⟨hmain, ?_, ?_⟩
  · intro m hm
    rw [hmain] at hm
    cases hm
    simp
  · intro ph hph hload
    obtain ⟨h1, h2⟩ := hv ph hph hload
    have hlen : ((e.file.bytes.drop ph.p_offset).take ph.p_filesz).length
        = ph.p_filesz := by
      rw [List.length_take, List.length_drop]
      exact Nat.min_eq_left (Nat.le_sub_of_add_le (by omega))
    have hmax : max ph.p_filesz ph.p_memsz = ph.p_memsz := Nat.max_eq_right h2
    refine ⟨rfl, ?_, ?_⟩
    · simp only [loadSegment, List.length_append, hlen, List.length_replicate]
      omega
    · intro i hi1 hi2
      simp only [loadSegment]
      rw [List.getElem?_append_right (by rw [hlen]; exact hi1)]
      rw [List.getElem?_replicate, if_pos (by rw [hlen]; omega)]

/-- The concrete ELF input of the C2 witness: one PT_LOAD header with
filesz 2, memsz 4, readable/executable, inside a 16-byte file. -/
def pfMem : ParsedElf :=
  { header := { e_entry := 0, e_machine := 3 },
    program_headers := [{ p_type := 1, p_offset := 0, p_vaddr := 0x1000,
                          p_filesz := 2, p_memsz := 4, p_flags := 5 }],
    section_headers := [], dynamic := none, dynsyms := [], syms := [],
    dynstrtab := [], strtab := [],
    bytes := [0x7f, 0x45, 0x4c, 0x46, 1, 0, 0, 0, 0, 0, 0, 0, 0, 0, 0, 0] }

/-- C2 witness: the theorem applied at a concrete valid ELF. -/
theorem claim_C2_memory_segments_witness :
    Elf.memory { base_address := 0, file := pfMem, user_function_entries := [] }
      = ROut.ok ⟨(pfMem.program_headers.filter
          (fun ph => decide (ph.p_type = PT_LOAD))).map
          (loadSegment pfMem.bytes 0)⟩ :=
  (claim_C2_memory_segments
    { base_address := 0, file := pfMem, user_function_entries := [] }
    (by decide)).1

/-- A dynamic function symbol at unrelocated address 5, named from offset
0 of the dynamic string table. -/
def symC1 : Sym := { st_name := 0, st_value := 5, st_shndx := 1, is_function := true }

/-- An ELF whose entry point 5 coincides with the symbol value 5. -/
def pfC1 : ParsedElf :=
  { header := { e_entry := 5, e_machine := 3 },
    program_headers := [], section_headers := [], dynamic := none,
    dynsyms := [symC1], syms := [], dynstrtab := [102, 0], strtab := [],
    bytes := [] }

/-- The Elf of the C1 counterexample: base address 10 and the user-declared
address 5, which is already covered by the dynamic symbol at unrelocated
address 5. -/
def eC1 : Elf := { base_address := 10, file := pfC1, user_function_entries := [5] }

/-- C1 counterexample: the entry point 5 and the user-declared address 5
both coincide with a known dynamic function symbol of unrelocated value 5,
so by the claim function_entries would hold exactly one entry; the code
skips the entry point but still adds the user entry, because the user
lookup probes the functions_added set with the RELOCATED address 5 + 10,
which is not among the unrelocated values.  The result has two entries at
the same relocated address 15. -/
theorem claim_C1_counterexample :
    eC1.user_function_entries = [5] ∧
    symC1 ∈ eC1.file.dynsyms ∧ symElig symC1 = true ∧ symC1.st_value = 5 ∧
    eC1.file.header.e_entry = 5 ∧
    eC1.function_entries =
      [{ address := 15, name := some "f" },
       { address := 15, name := some "user_function_5" }] := by
  refine ⟨rfl, by decide, by decide, rfl, rfl, ?_⟩
  decide

/-- C1 amended: dedup of the declared entry point uses the unrelocated
address against the set of eligible symbol values, and an entry point that
coincides with a known symbol yields no separate entry-point entry; but a
user-declared address u is skipped only when u + base_address (mod 2^64)
equals the UNRELOCATED value of some eligible symbol, and the entry point
is never inserted into the coverage set, so user addresses are not deduped
against the entry point or against the relocated symbol addresses. -/
theorem claim_C1_function_entries_dedup (e : Elf) :
    e.function_entries =
      (e.file.dynsyms.filter symElig).map (symEntry e.file.dynstrtab e.base_address) ++
      (e.file.syms.filter symElig).map (symEntry e.file.strtab e.base_address) ++
      (if (eligibleValues e.file).contains e.file.header.e_entry then []
       else [{ address := u64add e.file.header.e_entry e.base_address, name := none }]) ++
      (e.user_function_entries.filter
         (fun u => !(eligibleValues e.file).contains (u64add u e.base_address))).map
        (userEntry e.base_address) :=
  function_entries_closed e

/-- ELF input of the C3 conjuncts: a PT_LOAD header with memsz smaller
than filesz, whose zero-extension length underflows. -/
def pfBadMem : ParsedElf :=
  { header := { e_entry := 0, e_machine := 3 },
    program_headers := [{ p_type := 1, p_offset := 0, p_vaddr := 0,
                          p_filesz := 4, p_memsz := 2, p_flags := 7 }],
    section_headers := [], dynamic := none, dynsyms := [], syms := [],
    dynstrtab := [], strtab := [],
    bytes := [0x7f, 0x45, 0x4c, 0x46, 1, 0, 0, 0, 0, 0, 0, 0, 0, 0, 0, 0] }

/-- ELF input of the C3 conjuncts: a DT_STRTAB address that no section
header covers, reaching the explicit process abort in dt_needed. -/
def pfNoStrtabSec : ParsedElf :=
  { header := { e_entry := 0, e_machine := 3 },
    program_headers := [],
    section_headers := [], dynamic := some [{ d_tag := 5, d_val := 0x1000 }],
    dynsyms := [], syms := [], dynstrtab := [], strtab := [],
    bytes := [0x7f, 0x45, 0x4c, 0x46, 1, 0, 0, 0, 0, 0, 0, 0, 0, 0, 0, 0] }

/-- C3: the claim that Elf::new and every accessor return recoverable
errors on arbitrary inputs is violated by the code in four places: (1) a
buffer shorter than 16 bytes makes Elf::new abort on the unchecked slice
bytes 0..16; (2) a PT_LOAD header with memsz less than filesz makes
memory() abort on the u64 subtraction memsz - filesz; (3) a buffer that
passes the magic check but fails the full goblin parse makes every
accessor abort on unwrap; (4) a DT_STRTAB address with no covering section
header reaches an explicit process abort in dt_needed. -/
theorem claim_C3_panics_on_untrusted_input :
    elfNew (List.replicate 15 0) 0
        = ROut.panicked "slice index out of range: bytes 0..16" ∧
    Elf.memory { base_address := 0, file := pfBadMem, user_function_entries := [] }
        = ROut.panicked "attempt to subtract with overflow" ∧
    elfParseUnwrap none
        = ROut.panicked "called unwrap on a None value: goblin parse failed" ∧
    Elf.dt_needed { base_address := 0, file := pfNoStrtabSec, user_function_entries := [] }
        = ROut.panicked "Failed to get Dynamic strtab" := by
  refine ⟨by decide, by decide, rfl, by decide⟩

/-- C4: program_entry returns the file header entry point with no base
address added — independent of base_address and of the user entries —
while function_entries relocates the very same entry point by
base_address when it is not covered by a symbol. -/
theorem claim_C4_program_entry_unrelocated (f : ParsedElf) (b1 b2 : Nat)
    (u1 u2 : List Nat) :
    Elf.program_entry { base_address := b1, file := f, user_function_entries := u1 }
        = f.header.e_entry ∧
    Elf.program_entry { base_address := b1, file := f, user_function_entries := u1 }
        = Elf.program_entry { base_address := b2, file := f, user_function_entries := u2 } ∧
    ((eligibleValues f).contains f.header.e_entry = false →
      ({ address := u64add f.header.e_entry b1, name := none } : FunctionEntry)
        ∈ Elf.function_entries { base_address := b1, file := f,
                                 user_function_entries := u1 }) := by
  refine ⟨rfl, rfl, fun h => ?_⟩
  rw [function_entries_closed]
  rw [if_neg (by rw [h]; decide)]
  simp

/-- An ELF with no symbols at all, so its entry point is uncovered. -/
def pfPlain : ParsedElf :=
  { header := { e_entry := 0x400, e_machine := 3 },
    program_headers := [], section_headers := [], dynamic := none,
    dynsyms := [], syms := [], dynstrtab := [], strtab := [],
    bytes := [0x7f, 0x45, 0x4c, 0x46, 1, 0, 0, 0, 0, 0, 0, 0, 0, 0, 0, 0] }

/-- C4 witness: at base address 7, program_entry stays 0x400 while
function_entries holds the relocated entry 0x400 + 7. -/
theorem claim_C4_program_entry_unrelocated_witness :
    Elf.program_entry { base_address := 7, file := pfPlain, user_function_entries := [] }
        = 0x400 ∧
    ({ address := u64add 0x400 7, name := none } : FunctionEntry)
      ∈ Elf.function_entries { base_address := 7, file := pfPlain,
                               user_function_entries := [] } :=
  ⟨(claim_C4_program_entry_unrelocated pfPlain 7 0 [] []).1,
   (claim_C4_program_entry_unrelocated pfPlain 7 0 [] []).2.2 rfl⟩

/-- C7: clone_new_index produces a block equal to the original in every
field except the block index, which becomes k; re-cloning with the
original index restores the original block exactly, so no other field was
changed.  Independence of the clone holds by value semantics of the
embedding, mirroring the deep copy the derived Rust Clone performs. -/
theorem claim_C7_clone_new_index {V : Type} (b : Block V) (k : Nat) :
    (b.clone_new_index k).index = k ∧
    (b.clone_new_index k).instructions = b.instructions ∧
    (b.clone_new_index k).next_instruction_index = b.next_instruction_index ∧
    (b.clone_new_index k).next_temp_index = b.next_temp_index ∧
    (b.clone_new_index k).clone_new_index b.index = b := by
  cases b
  simp [Block.clone_new_index]

/-! ## Block::append and Block::remove_instruction -/

lemma zipWith_right_eq {α β : Type} :
    ∀ (l1 : List α) (l2 : List β), l1.length = l2.length →
      List.zipWith (fun _ y => y) l1 l2 = l2 := by
  intro l1
  induction l1 with
  | nil => intro l2 h; cases l2 <;> simp_all
  | cons x rest ih =>
    intro l2 h
    cases l2 with
    | nil => simp at h
    | cons y r2 => simp_all

lemma zipWith_left_map {α β γ : Type} (g : α → γ) :
    ∀ (l1 : List α) (l2 : List β), l1.length = l2.length →
      List.zipWith (fun x _ => g x) l1 l2 = l1.map g := by
  intro l1
  induction l1 with
  | nil => intro l2 h; simp
  | cons x rest ih =>
    intro l2 h
    cases l2 with
    | nil => simp at h
    | cons y r2 => simp_all

lemma append_foldl_eq {V : Type} :
    ∀ (l : List (Instruction V)) (b : Block V),
    List.foldl
      (fun acc ins =>
        let p := Block.new_instruction_index acc
        p.2.push (ins.clone_new_index p.1)) b l =
      { index := b.index,
        next_instruction_index := b.next_instruction_index + l.length,
        next_temp_index := b.next_temp_index,
        instructions := b.instructions ++
          List.zipWith (fun ins idx => ins.clone_new_index idx) l
            (List.range' b.next_instruction_index l.length) } := by
  intro l
  induction l with
  | nil => intro b; cases b; simp
  | cons ins rest ih =>
    intro b
    rw [List.foldl_cons, ih]
    simp [Block.new_instruction_index, Block.push, List.range'_succ,
      List.append_assoc]
    omega

lemma append_eq {V : Type} (b other : Block V) :
    b.append other =
      { index := b.index,
        next_instruction_index :=
          b.next_instruction_index + other.instructions.length,
        next_temp_index := b.next_temp_index,
        instructions := b.instructions ++
          List.zipWith (fun ins idx => ins.clone_new_index idx)
            other.instructions
            (List.range' b.next_instruction_index other.instructions.length) } :=
  append_foldl_eq other.instructions b

/-- C5 amended: append yields N+M instructions preserving both relative
orders and the appended M instructions carry consecutive indices allocated
from SELF'S NEXT-INSTRUCTION-INDEX COUNTER (which equals N only when no
instruction was ever removed from self), regardless of other's original
indices. -/
theorem claim_C5_append (V : Type) (b other : Block V) :
    (b.append other).instructions =
      b.instructions ++
        List.zipWith (fun ins idx => ins.clone_new_index idx)
          other.instructions
          (List.range' b.next_instruction_index other.instructions.length) ∧
    (b.append other).instructions.length =
      b.instructions.length + other.instructions.length ∧
    (b.append other).next_instruction_index =
      b.next_instruction_index + other.instructions.length ∧
    (b.append other).index = b.index ∧
    (b.append other).next_temp_index = b.next_temp_index ∧
    ((b.append other).instructions.drop b.instructions.length).map
        Instruction.index =
      List.range' b.next_instruction_index other.instructions.length ∧
    ((b.append other).instructions.drop b.instructions.length).map
        Instruction.operation =
      other.instructions.map Instruction.operation := by
  have hlen : other.instructions.length =
      (List.range' b.next_instruction_index other.instructions.length).length := by
    simp
  have hzlen : (List.zipWith (fun ins idx => ins.clone_new_index idx)
      other.instructions
      (List.range' b.next_instruction_index other.instructions.length)).length
      = other.instructions.length := by
    rw [List.length_zipWith]
    omega
  refine ⟨by rw [append_eq], ?_, by rw [append_eq], by rw [append_eq],
    by rw [append_eq], ?_, ?_⟩
  · rw [append_eq]
    simp only [List.length_append, hzlen]
  · rw [append_eq]
    simp only [List.drop_left]
    rw [List.map_zipWith]
    have : (fun (ins : Instruction V) (idx : Nat) =>
        (ins.clone_new_index idx).index) = fun _ idx => idx := rfl
    rw [this, zipWith_right_eq _ _ hlen]
  · rw [append_eq]
    simp only [List.drop_left]
    rw [List.map_zipWith]
    have : (fun (ins : Instruction V) (idx : Nat) =>
        (ins.clone_new_index idx).operation) = fun ins _ => ins.operation := rfl
    rw [this, zipWith_left_map _ _ _ hlen]

/-- A block built by two builder calls followed by one removal: one
remaining instruction, but its next-instruction-index counter is 2. -/
def b5 : Block Nat :=
  ((((Block.new 0).assign 0 0).assign 0 0).remove_instruction 0).2

/-- A one-instruction block to append. -/
def b5other : Block Nat := (Block.new 1).assign 0 0

/-- C5 counterexample: self has N = 1 instruction and other has M = 1, but
the appended instruction carries index 2, which does not lie in
[N, N+M) = [1, 2) — the fresh index comes from self's counter (here 2
after a removal), not from the instruction count N. -/
theorem claim_C5_counterexample :
    b5.instructions.length = 1 ∧
    b5other.instructions.length = 1 ∧
    b5.next_instruction_index = 2 ∧
    ((b5.append b5other).instructions.drop 1).map Instruction.index = [2] ∧
    ¬ (2 < b5.instructions.length + b5other.instructions.length) := by
  decide

lemma firstIdxWhere_none_iff {α : Type} (p : α → Bool) :
    ∀ l : List α, Block.firstIdxWhere p l = none ↔ ∀ x ∈ l, p x = false := by
  intro l
  induction l with
  | nil => simp [Block.firstIdxWhere]
  | cons x rest ih =>
    cases h : p x with
    | true => simp [Block.firstIdxWhere, h]
    | false => simp [Block.firstIdxWhere, h, ih]

lemma firstIdxWhere_some_lt {α : Type} (p : α → Bool) :
    ∀ (l : List α) (j : Nat), Block.firstIdxWhere p l = some j → j < l.length := by
  intro l
  induction l with
  | nil => intro j h; simp [Block.firstIdxWhere] at h
  | cons x rest ih =>
    intro j h
    by_cases hp : p x
    · simp [Block.firstIdxWhere, hp] at h
      simp [List.length_cons]
      omega
    · simp [Block.firstIdxWhere, hp] at h
      obtain ⟨k, hk, rfl⟩ := h
      have := ih k hk
      simp
      omega

/-- C6: remove_instruction with an index carried by no instruction returns
a NotFound-style error and leaves the block unchanged; with a carried
index it succeeds, the length drops by exactly one, the surviving
instructions are a sublist of the originals (so every kept instruction,
including its index, is untouched), and the block index and both counters
are unchanged. -/
theorem claim_C6_remove_instruction {V : Type} (b : Block V) (i : Nat) :
    ((∀ ins ∈ b.instructions, ins.index ≠ i) →
      b.remove_instruction i =
        (Except.error ("No instruction with index " ++ toString i ++ " found"), b)) ∧
    ((∃ ins ∈ b.instructions, ins.index = i) →
      (b.remove_instruction i).1 = Except.ok () ∧
      (b.remove_instruction i).2.instructions.length + 1 = b.instructions.length ∧
      List.Sublist (b.remove_instruction i).2.instructions b.instructions ∧
      (b.remove_instruction i).2.index = b.index ∧
      (b.remove_instruction i).2.next_instruction_index = b.next_instruction_index ∧
      (b.remove_instruction i).2.next_temp_index = b.next_temp_index) := by
  constructor
  · intro hno
    have hn : Block.firstIdxWhere (fun ins => ins.index = i) b.instructions = none :=
      (firstIdxWhere_none_iff _ _).mpr (fun x hx => by simp [hno x hx])
    unfold Block.remove_instruction
    rw [hn]
  · rintro ⟨ins, hin, hidx⟩
    cases hf : Block.firstIdxWhere (fun ins => ins.index = i) b.instructions with
    | none =>
      have := (firstIdxWhere_none_iff _ b.instructions).mp hf ins hin
      simp [hidx] at this
    | some j =>
      have hj : j < b.instructions.length := firstIdxWhere_some_lt _ _ _ hf
      unfold Block.remove_instruction
      rw [hf]
      exact ⟨rfl, List.length_eraseIdx_add_one hj, List.eraseIdx_sublist _ _,
        rfl, rfl, rfl⟩

/-! ## ElfLinker invariants -/

lemma foldl_add_segment :
    ∀ (l : List MemorySegment) (m : Memory),
    List.foldl Memory.add_segment m l = ⟨m.segments ++ l⟩ := by
  intro l
  induction l with
  | nil => intro m; cases m; simp
  | cons s rest ih =>
    intro m
    rw [List.foldl_cons, ih]
    simp [Memory.add_segment]

lemma mergeMemory_eq (m new : Memory) :
    mergeMemory m new = ⟨m.segments ++ new.segments⟩ :=
  foldl_add_segment new.segments m

lemma lookupAL_insert {α : Type} :
    ∀ (l : List (String × α)) (k k' : String) (v : α),
    lookupAL (insertAL l k v) k' = if k = k' then some v else lookupAL l k' := by
  intro l
  induction l with
  | nil => intro k k' v; simp [insertAL, lookupAL]
  | cons p rest ih =>
    intro k k' v
    obtain ⟨k1, v1⟩ := p
    by_cases h1 : k1 = k
    · subst h1
      rw [insertAL, if_pos rfl]
      by_cases h2 : k1 = k'
      · rw [lookupAL, if_pos h2, if_pos h2]
      · rw [lookupAL, if_neg h2, if_neg h2, lookupAL, if_neg h2]
    · rw [insertAL, if_neg h1]
      by_cases h2 : k1 = k'
      · have hk : ¬ k = k' := fun hh => h1 (h2.trans hh.symm)
        rw [lookupAL, if_pos h2, if_neg hk, lookupAL, if_pos h2]
      · rw [lookupAL, if_neg h2, ih]
        by_cases h3 : k = k'
        · rw [if_pos h3, if_pos h3]
        · rw [if_neg h3, if_neg h3, lookupAL, if_neg h2]

lemma resolvePath_base (root p : FPath) (fs : FileSystem) :
    (resolvePath root p fs).base = p.base := by
  simp only [resolvePath]
  split <;> rfl

/-- State evolution of load_elf: the root filename field is preserved, and
a key present in the loaded map stays present (keys are only inserted,
never removed). -/
def keepsKeys (s1 s2 : ElfLinker) : Prop :=
  s1.filename = s2.filename ∧
  ∀ k, (lookupAL s1.loaded k).isSome = true → (lookupAL s2.loaded k).isSome = true

lemma keepsKeys_refl (s : ElfLinker) : keepsKeys s s := ⟨rfl, fun _ h => h⟩

lemma keepsKeys_trans {a b c : ElfLinker} (h1 : keepsKeys a b)
    (h2 : keepsKeys b c) : keepsKeys a c :=
  ⟨h1.1.trans h2.1, fun k hk => h2.2 k (h1.2 k hk)⟩

lemma loadDepsF_keeps (step : ElfLinker → FPath → Nat → LOut ElfLinker)
    (hE : ∀ st p b st', step st p b = LOut.ok st' → keepsKeys st st') :
    ∀ (names : List String) (st st' : ElfLinker),
    loadDepsF step st names = LOut.ok st' → keepsKeys st st' := by
  intro names
  induction names with
  | nil =>
    intro st st' h
    rw [loadDepsF] at h
    cases h
    exact keepsKeys_refl _
  | cons n rest ih =>
    intro st st' h
    simp only [loadDepsF] at h
    by_cases hl : (lookupAL st.loaded n).isSome = true
    · rw [if_pos hl] at h
      exact ih st st' h
    · rw [if_neg hl] at h
      cases hle : step
          { st with next_lib_address := u64add st.next_lib_address LIB_BASE_STEP }
          { dir := [], base := n } (u64add st.next_lib_address LIB_BASE_STEP) with
      | ok s1 =>
        simp only [hle] at h
        have k1 : keepsKeys st
            { st with next_lib_address := u64add st.next_lib_address LIB_BASE_STEP } :=
          ⟨rfl, fun _ hk => hk⟩
        exact keepsKeys_trans (keepsKeys_trans k1 (hE _ _ _ _ hle)) (ih _ _ h)
      | err s => simp only [hle] at h; exact LOut.noConfusion h
      | panicked s => simp only [hle] at h; exact LOut.noConfusion h
      | outOfFuel => simp only [hle] at h; exact LOut.noConfusion h

lemma loadElf_keeps (fs : FileSystem) :
    ∀ (fuel : Nat) (st : ElfLinker) (p : FPath) (b : Nat) (st' : ElfLinker),
    loadElf fs fuel st p b = LOut.ok st' → keepsKeys st st' := by
  intro fuel
  induction fuel with
  | zero => intro st p b st' h; simp [loadElf] at h
  | succ f ihf =>
    intro st p b st' h
    simp only [loadElf] at h
    cases hfs : fsGet fs (resolvePath st.filename p fs) with
    | none => simp only [hfs] at h; exact LOut.noConfusion h
    | some pf =>
      simp only [hfs] at h
      cases hnew : elfNew pf.bytes b with
      | err s => simp only [hnew] at h; exact LOut.noConfusion h
      | panicked s => simp only [hnew] at h; exact LOut.noConfusion h
      | ok r =>
        simp only [hnew] at h
        cases hmem : Elf.memory
            { base_address := b, file := pf, user_function_entries := [] } with
        | err s => simp only [hmem] at h; exact LOut.noConfusion h
        | panicked s => simp only [hmem] at h; exact LOut.noConfusion h
        | ok mem =>
          simp only [hmem] at h
          cases hdn : Elf.dt_needed
              { base_address := b, file := pf, user_function_entries := [] } with
          | err s => simp only [hdn] at h; exact LOut.noConfusion h
          | panicked s => simp only [hdn] at h; exact LOut.noConfusion h
          | ok needed =>
            simp only [hdn] at h
            have hstep := loadDepsF_keeps (loadElf fs f)
              (fun a c d e hh => ihf a c d e hh) needed _ _ h
            refine keepsKeys_trans ?_ hstep
            refine ⟨rfl, ?_⟩
            intro k hk
            rw [lookupAL_insert]
            by_cases hkk : (resolvePath st.filename p fs).base = k
            · rw [if_pos hkk]; rfl
            · rw [if_neg hkk]; exact hk

lemma loadElf_key (fs : FileSystem) :
    ∀ (fuel : Nat) (st : ElfLinker) (p : FPath) (b : Nat) (st' : ElfLinker),
    loadElf fs fuel st p b = LOut.ok st' →
    (lookupAL st'.loaded p.base).isSome = true := by
  intro fuel
  cases fuel with
  | zero => intro st p b st' h; simp [loadElf] at h
  | succ f =>
    intro st p b st' h
    simp only [loadElf] at h
    cases hfs : fsGet fs (resolvePath st.filename p fs) with
    | none => simp only [hfs] at h; exact LOut.noConfusion h
    | some pf =>
      simp only [hfs] at h
      cases hnew : elfNew pf.bytes b with
      | err s => simp only [hnew] at h; exact LOut.noConfusion h
      | panicked s => simp only [hnew] at h; exact LOut.noConfusion h
      | ok r =>
        simp only [hnew] at h
        cases hmem : Elf.memory
            { base_address := b, file := pf, user_function_entries := [] } with
        | err s => simp only [hmem] at h; exact LOut.noConfusion h
        | panicked s => simp only [hmem] at h; exact LOut.noConfusion h
        | ok mem =>
          simp only [hmem] at h
          cases hdn : Elf.dt_needed
              { base_address := b, file := pf, user_function_entries := [] } with
          | err s => simp only [hdn] at h; exact LOut.noConfusion h
          | panicked s => simp only [hdn] at h; exact LOut.noConfusion h
          | ok needed =>
            simp only [hdn] at h
            have hstep := loadDepsF_keeps (loadElf fs f)
              (fun a c d e hh => loadElf_keeps fs f a c d e hh) needed _ _ h
            apply hstep.2
            rw [lookupAL_insert, if_pos (resolvePath_base st.filename p fs)]
            rfl

/-- C10: whenever ElfLinker::new returns Ok, the loaded map contains the
base file name of the root path (the root is registered during the initial
load and keys are never removed), the stored filename is still the root
path, so program_entry finds the root Elf and returns a value, and
architecture never hits the missing-key abort. -/
theorem claim_C10_root_always_loaded (fs : FileSystem) (fuel : Nat)
    (root : FPath) (st : ElfLinker)
    (h : linkerNew fs fuel root = LOut.ok st) :
    (lookupAL st.loaded root.base).isSome = true ∧
    st.filename = root ∧
    (∃ v, st.program_entry = ROut.ok v) ∧
    (∀ m, st.architecture ≠ ROut.panicked m) := by
  have hkey := loadElf_key fs fuel _ root 0 st h
  have hkeep := loadElf_keeps fs fuel _ root 0 st h
  have hfn : st.filename = root := hkeep.1.symm
  refine ⟨hkey, hfn, ?_, ?_⟩
  · cases hl : lookupAL st.loaded st.filename.base with
    | none =>
      rw [hfn] at hl
      rw [hl] at hkey
      cases hkey
    | some e =>
      exact ⟨e.program_entry, by rw [ElfLinker.program_entry, hl]⟩
  · intro m
    cases hl : lookupAL st.loaded st.filename.base with
    | none =>
      rw [hfn] at hl
      rw [hl] at hkey
      cases hkey
    | some e =>
      simp only [ElfLinker.architecture, hl]
      unfold Elf.architecture
      split <;> simp

/-- The expected final linker state of the C10 witness. -/
def stW : ElfLinker :=
  { filename := { dir := [], base := "a" },
    loaded := [("a", { base_address := 0, file := pfPlain,
                       user_function_entries := [] })],
    memory := { segments := [] },
    next_lib_address := DEFAULT_LIB_BASE,
    load_events := ["a"] }

/-- C10 witness: a one-file link computes to Ok, and the theorem yields the
root lookup and a program_entry value for it. -/
theorem claim_C10_root_always_loaded_witness :
    (lookupAL stW.loaded "a").isSome = true ∧
    (∃ v, stW.program_entry = ROut.ok v) :=
  ⟨(claim_C10_root_always_loaded [({ dir := [], base := "a" }, pfPlain)] 1
      { dir := [], base := "a" } stW (by decide)).1,
   (claim_C10_root_always_loaded [({ dir := [], base := "a" }, pfPlain)] 1
      { dir := [], base := "a" } stW (by decide)).2.2.1⟩

/-- C8: two libraries that each declare the other as DT_NEEDED are loaded
exactly once each and the recursive load completes (fuel 2, one unit per
nested load_elf call, is not exhausted): when B's DT_NEEDED names A, the
name A is already in the loaded map, which stops the mutual recursion.
The load-event ghost trace is exactly [A, B]. -/
theorem claim_C8_mutual_deps_terminate (A B : String) (hAB : A ≠ B)
    (eA eB : ParsedElf) (mA mB : Memory)
    (hlenA : 16 ≤ eA.bytes.length) (hmagA : isElfMagic eA.bytes = true)
    (hlenB : 16 ≤ eB.bytes.length) (hmagB : isElfMagic eB.bytes = true)
    (hmemA : Elf.memory ⟨0, eA, []⟩ = ROut.ok mA)
    (hdnA : Elf.dt_needed ⟨0, eA, []⟩ = ROut.ok [B])
    (hmemB : Elf.memory ⟨u64add DEFAULT_LIB_BASE LIB_BASE_STEP, eB, []⟩ = ROut.ok mB)
    (hdnB : Elf.dt_needed ⟨u64add DEFAULT_LIB_BASE LIB_BASE_STEP, eB, []⟩ = ROut.ok [A]) :
    linkerNew [({ dir := [], base := A }, eA), ({ dir := [], base := B }, eB)] 2
        { dir := [], base := A } =
      LOut.ok
        { filename := { dir := [], base := A },
          loaded := [(A, ⟨0, eA, []⟩), (B, ⟨u64add DEFAULT_LIB_BASE LIB_BASE_STEP, eB, []⟩)],
          memory := { segments := mA.segments ++ mB.segments },
          next_lib_address := u64add DEFAULT_LIB_BASE LIB_BASE_STEP,
          load_events := [A, B] } := by
  rw [linkerNew, show (2 : Nat) = 0 + 1 + 1 from rfl]
  simp [loadElf, loadDepsF, resolvePath, fsGet, lookupAL, insertAL,
    mergeMemory_eq, Memory.new, elfNew, Nat.not_lt.mpr hlenA, hmagA,
    Nat.not_lt.mpr hlenB, hmagB, hmemA, hdnA, hmemB, hdnB, hAB,
    FPath.mk.injEq]

/-- Concrete library for the C8 witness: its dynamic section holds a
DT_STRTAB pointing at virtual address 0x1000, a section header maps that
address to file offset 16, where the bytes spell the C string for the
library name b, and a DT_NEEDED entry at string offset 0. -/
def pfA : ParsedElf :=
  { header := { e_entry := 0, e_machine := 3 },
    program_headers := [],
    section_headers := [{ sh_addr := 0x1000, sh_offset := 16, sh_size := 2 }],
    dynamic := some [{ d_tag := 5, d_val := 0x1000 }, { d_tag := 1, d_val := 0 }],
    dynsyms := [], syms := [], dynstrtab := [], strtab := [],
    bytes := [0x7f, 0x45, 0x4c, 0x46, 1, 0, 0, 0, 0, 0, 0, 0, 0, 0, 0, 0, 98, 0] }

/-- Concrete library for the C8 witness, naming a as its dependency. -/
def pfB : ParsedElf :=
  { header := { e_entry := 0, e_machine := 3 },
    program_headers := [],
    section_headers := [{ sh_addr := 0x1000, sh_offset := 16, sh_size := 2 }],
    dynamic := some [{ d_tag := 5, d_val := 0x1000 }, { d_tag := 1, d_val := 0 }],
    dynsyms := [], syms := [], dynstrtab := [], strtab := [],
    bytes := [0x7f, 0x45, 0x4c, 0x46, 1, 0, 0, 0, 0, 0, 0, 0, 0, 0, 0, 0, 97, 0] }

/-- C8 witness: libraries a and b each naming the other in DT_NEEDED; the
link completes with each loaded exactly once. -/
theorem claim_C8_mutual_deps_terminate_witness :
    linkerNew [({ dir := [], base := "a" }, pfA), ({ dir := [], base := "b" }, pfB)] 2
        { dir := [], base := "a" } =
      LOut.ok
        { filename := { dir := [], base := "a" },
          loaded := [("a", ⟨0, pfA, []⟩),
                     ("b", ⟨u64add DEFAULT_LIB_BASE LIB_BASE_STEP, pfB, []⟩)],
          memory := { segments := [] ++ [] },
          next_lib_address := u64add DEFAULT_LIB_BASE LIB_BASE_STEP,
          load_events := ["a", "b"] } :=
  claim_C8_mutual_deps_terminate "a" "b" (by decide) pfA pfB ⟨[]⟩ ⟨[]⟩
    (by decide) (by decide) (by decide) (by decide)
    (by decide) (by decide) (by decide) (by decide)

/-- C9: a root whose only DT_NEEDED is libc.so.6, with libc.so.6 present
in the root's directory: the link loads exactly the two objects (events
[root, libc]), the dependency is registered at base address
DEFAULT_LIB_BASE + LIB_BASE_STEP, the merged memory is the root's segments
followed by the dependency's, and when neither object spans more than one
step the relocated address ranges do not overlap. -/
theorem claim_C9_root_with_libc (rootName : String) (rootDir : List String)
    (eR eL : ParsedElf) (mR mL : Memory)
    (hname : rootName ≠ "libc.so.6")
    (hlenR : 16 ≤ eR.bytes.length) (hmagR : isElfMagic eR.bytes = true)
    (hlenL : 16 ≤ eL.bytes.length) (hmagL : isElfMagic eL.bytes = true)
    (hmemR : Elf.memory ⟨0, eR, []⟩ = ROut.ok mR)
    (hdnR : Elf.dt_needed ⟨0, eR, []⟩ = ROut.ok ["libc.so.6"])
    (hmemL : Elf.memory ⟨u64add DEFAULT_LIB_BASE LIB_BASE_STEP, eL, []⟩ = ROut.ok mL)
    (hdnL : Elf.dt_needed ⟨u64add DEFAULT_LIB_BASE LIB_BASE_STEP, eL, []⟩ = ROut.ok [])
    (hspanR : ∀ s ∈ mR.segments, s.address + s.bytes.length ≤ LIB_BASE_STEP)
    (hspanL : ∀ s ∈ mL.segments, DEFAULT_LIB_BASE + LIB_BASE_STEP ≤ s.address ∧
        s.address + s.bytes.length ≤ DEFAULT_LIB_BASE + 2 * LIB_BASE_STEP) :
    linkerNew
        [({ dir := rootDir, base := rootName }, eR),
         ({ dir := rootDir, base := "libc.so.6" }, eL)] 2
        { dir := rootDir, base := rootName } =
      LOut.ok
        { filename := { dir := rootDir, base := rootName },
          loaded := [(rootName, ⟨0, eR, []⟩),
                     ("libc.so.6", ⟨u64add DEFAULT_LIB_BASE LIB_BASE_STEP, eL, []⟩)],
          memory := { segments := mR.segments ++ mL.segments },
          next_lib_address := u64add DEFAULT_LIB_BASE LIB_BASE_STEP,
          load_events := [rootName, "libc.so.6"] } ∧
    u64add DEFAULT_LIB_BASE LIB_BASE_STEP = DEFAULT_LIB_BASE + LIB_BASE_STEP ∧
    (∀ s1 ∈ mR.segments, ∀ s2 ∈ mL.segments,
      s1.address + s1.bytes.length ≤ s2.address) := by
  have hr : resolvePath { dir := rootDir, base := rootName }
      { dir := rootDir, base := rootName }
      [({ dir := rootDir, base := rootName }, eR),
       ({ dir := rootDir, base := "libc.so.6" }, eL)] =
      { dir := rootDir, base := rootName } := by
    by_cases hd : rootDir = ([] : List String)
    · subst hd
      simp [resolvePath, fsGet]
    · have hne : ¬ (rootDir = rootDir ++ rootDir) := by
        intro hcon
        have hlen := congrArg List.length hcon
        rw [List.length_append] at hlen
        have hz : rootDir.length = 0 := by omega
        exact hd (List.length_eq_zero.mp hz)
      simp [resolvePath, fsGet, FPath.mk.injEq, hne, Ne.symm hname]
  have hgR : fsGet
      [({ dir := rootDir, base := rootName }, eR),
       ({ dir := rootDir, base := "libc.so.6" }, eL)]
      { dir := rootDir, base := rootName } = some eR := by
    simp [fsGet]
  have hr2 : resolvePath { dir := rootDir, base := rootName }
      { dir := [], base := "libc.so.6" }
      [({ dir := rootDir, base := rootName }, eR),
       ({ dir := rootDir, base := "libc.so.6" }, eL)] =
      { dir := rootDir, base := "libc.so.6" } := by
    simp [resolvePath, fsGet, FPath.mk.injEq, hname]
  have hgL : fsGet
      [({ dir := rootDir, base := rootName }, eR),
       ({ dir := rootDir, base := "libc.so.6" }, eL)]
      { dir := rootDir, base := "libc.so.6" } = some eL := by
    simp [fsGet, FPath.mk.injEq, hname]
  refine ⟨?_, by decide, fun s1 h1 s2 h2 => ?_⟩
  · rw [linkerNew, show (2 : Nat) = 0 + 1 + 1 from rfl]
    simp [loadElf, loadDepsF, lookupAL, insertAL, mergeMemory_eq,
      Memory.new, elfNew, Nat.not_lt.mpr hlenR, hmagR, Nat.not_lt.mpr hlenL,
      hmagL, hmemR, hdnR, hmemL, hdnL, hname, Ne.symm hname, hr, hgR, hr2, hgL]
  · have a1 := hspanR s1 h1
    have a2 := (hspanL s2 h2).1
    omega

/-- Concrete root binary for the C9 witness: its dynamic string table
bytes at file offset 16 spell the C string libc.so.6, and the single
DT_NEEDED entry points at string offset 0. -/
def pfRoot : ParsedElf :=
  { header := { e_entry := 0, e_machine := 3 },
    program_headers := [],
    section_headers := [{ sh_addr := 0x1000, sh_offset := 16, sh_size := 10 }],
    dynamic := some [{ d_tag := 5, d_val := 0x1000 }, { d_tag := 1, d_val := 0 }],
    dynsyms := [], syms := [], dynstrtab := [], strtab := [],
    bytes := [0x7f, 0x45, 0x4c, 0x46, 1, 0, 0, 0, 0, 0, 0, 0, 0, 0, 0, 0,
              108, 105, 98, 99, 46, 115, 111, 46, 54, 0] }

/-- C9 witness: a concrete root named prog depending on libc.so.6, with
libc.so.6 beside it; the theorem instance computes the final state. -/
theorem claim_C9_root_with_libc_witness :
    linkerNew
        [({ dir := [], base := "prog" }, pfRoot),
         ({ dir := [], base := "libc.so.6" }, pfPlain)] 2
        { dir := [], base := "prog" } =
      LOut.ok
        { filename := { dir := [], base := "prog" },
          loaded := [("prog", ⟨0, pfRoot, []⟩),
                     ("libc.so.6", ⟨u64add DEFAULT_LIB_BASE LIB_BASE_STEP, pfPlain, []⟩)],
          memory := { segments := [] ++ [] },
          next_lib_address := u64add DEFAULT_LIB_BASE LIB_BASE_STEP,
          load_events := ["prog", "libc.so.6"] } :=
  (claim_C9_root_with_libc "prog" [] pfRoot pfPlain ⟨[]⟩ ⟨[]⟩
    (by decide) (by decide) (by decide) (by decide) (by decide)
    (by decide) (by decide) (by decide) (by decide) (by decide)
    (by decide)).1

/-- The concrete block of the C6 witness: a single assign at index 0. -/
def b6 : Block Nat := (Block.new 0).assign 1 2

/-- C6 witness: removing absent index 5 errs and leaves b6 unchanged;
removing present index 0 succeeds and shrinks the sequence by one. -/
theorem claim_C6_remove_instruction_witness :
    b6.remove_instruction 5 =
      (Except.error ("No instruction with index " ++ toString 5 ++ " found"), b6) ∧
    (b6.remove_instruction 0).1 = Except.ok () ∧
    (b6.remove_instruction 0).2.instructions.length + 1 = b6.instructions.length :=
  ⟨(claim_C6_remove_instruction b6 5).1 (by decide),
   ((claim_C6_remove_instruction b6 0).2
      ⟨{ index := 0, operation := Operation.assign 1 2 }, by decide, rfl⟩).1,
   ((claim_C6_remove_instruction b6 0).2
      ⟨{ index := 0, operation := Operation.assign 1 2 }, by decide, rfl⟩).2.1⟩

end Falcon
